import Mathlib

/-!
Shallow embedding of the news-aggregation pipeline of
`backend/server.py` (EV Portal Schweiz): feed fetching, article
normalization, categorization, deduplication, cache freshness and the
`GET /news` endpoint, together with proofs of the specified properties.

Conventions of the embedding:
* Python strings are Lean `String`s; slicing `s[:n]` is `List.take n`
  on `s.data` (both operate on code points).
* Python `datetime` values are represented by their `isoformat()`
  strings; the code itself compares `published` values as strings when
  sorting, so this is faithful to the source.
* Python exceptions are modelled with `Except Unit`; a `try/except`
  block is a `match` on the `Except` value.
* Python `list.sort(key=k, reverse=True)` is a stable descending sort;
  it is modelled by `List.insertionSort` (stable) with the relation
  "key of left ≥ key of right".
-/

/-- A normalized article, the dict built per entry in `fetch_single_feed`. -/
structure Article where
  id : String
  title : String
  summary : String
  url : String
  source : String
  language : String
  region : String
  published : Option String
  image_url : Option String
  categories : List String
deriving DecidableEq

/-- One entry of the `NEWS_FEEDS` registry: url, display name, language, region. -/
structure FeedConfig where
  url : String
  name : String
  lang : String
  region : String
deriving DecidableEq

/-- Scan forward to the first `>` and return the remainder after it
(helper for the regex `<[^>]+>` used by `clean_html`). -/
def dropThroughGt : List Char → Option (List Char)
  | [] => none
  | c :: rest => if c = '>' then some rest else dropThroughGt rest

/-- Model of `re.sub(r'<[^>]+>', '', text)`: remove every leftmost non-overlapping
occurrence of `<`, one or more non-`>` characters, then `>`.  The fuel
argument makes the recursion structural; every step strictly shortens
the scanned list, so fuel equal to the input length never runs out. -/
def strip_tags_go : Nat → List Char → List Char
  | 0, l => l
  | _, [] => []
  | fuel + 1, c :: rest =>
    if c = '<' then
      match rest with
      | [] => ['<']
      | d :: rest' =>
        if d = '>' then
          '<' :: strip_tags_go fuel (d :: rest')
        else
          match dropThroughGt rest' with
          | some r => strip_tags_go fuel r
          | none => c :: strip_tags_go fuel (d :: rest')
    else c :: strip_tags_go fuel rest

/-- Tag stripping over a whole character list. -/
def strip_tags (l : List Char) : List Char := strip_tags_go l.length l

/-- Model of `html.unescape`, restricted to the entity forms that matter for this
feed pipeline: the five standard named XML entities and the decimal
apostrophe reference.  (Python decodes the full HTML5 table; the extra
names are irrelevant to every property proved below.) -/
def unescape_chars : List Char → List Char
  | [] => []
  | '&' :: 'a' :: 'm' :: 'p' :: ';' :: rest => '&' :: unescape_chars rest
  | '&' :: 'l' :: 't' :: ';' :: rest => '<' :: unescape_chars rest
  | '&' :: 'g' :: 't' :: ';' :: rest => '>' :: unescape_chars rest
  | '&' :: 'q' :: 'u' :: 'o' :: 't' :: ';' :: rest => '"' :: unescape_chars rest
  | '&' :: 'a' :: 'p' :: 'o' :: 's' :: ';' :: rest => '\'' :: unescape_chars rest
  | '&' :: '#' :: '3' :: '9' :: ';' :: rest => '\'' :: unescape_chars rest
  | c :: rest => c :: unescape_chars rest

/-- Python's regex `\s` over the ASCII range. -/
def isPySpace (c : Char) : Bool :=
  c = ' ' || c = '\t' || c = '\n' || c = '\r' || c = Char.ofNat 11 || c = Char.ofNat 12

/-- Model of `re.sub(r'\s+', ' ', ·)`: collapse every whitespace run to one space.
The flag records whether the previous character was part of a run. -/
def collapse_ws_go : Bool → List Char → List Char
  | _, [] => []
  | prev, c :: rest =>
    if isPySpace c then
      if prev then collapse_ws_go true rest else ' ' :: collapse_ws_go true rest
    else c :: collapse_ws_go false rest

/-- Python `str.strip()`: drop leading and trailing whitespace. -/
def strip_ends (l : List Char) : List Char :=
  ((l.dropWhile isPySpace).reverse.dropWhile isPySpace).reverse

/-- The cleaned text before the length cap in `clean_html`. -/
def cleaned_text (text : String) : List Char :=
  strip_ends (collapse_ws_go false (unescape_chars (strip_tags text.data)))

/-- The function `clean_html`: strip tags, unescape entities, collapse whitespace, trim,
then `clean[:500] + "..." if len(clean) > 500 else clean`. -/
def clean_html (text : String) : String :=
  if text = "" then ""
  else if (cleaned_text text).length > 500 then
    String.mk ((cleaned_text text).take 500 ++ "...".data)
  else String.mk (cleaned_text text)

/-- The `NEWS_CATEGORIES` keyword table of the source, in order. -/
def NEWS_CATEGORIES : List (String × List String) :=
  [("vehicles", ["fahrzeug", "vehicle", "auto", "car", "model", "modell", "ev", "elektroauto", "automobil", "vozilo"]),
   ("battery", ["batterie", "battery", "akku", "zelle", "cell", "reichweite", "range", "degradation", "lebensdauer", "baterija"]),
   ("charging", ["laden", "charging", "ladestation", "charger", "ladesÃ¤ule", "wallbox", "schnellladen", "dc", "ac", "punjenje", "punjaÄ"]),
   ("policy", ["fÃ¶rderung", "subsidy", "gesetz", "law", "regulierung", "regulation", "steuer", "tax", "politik", "policy", "zakon", "poticaj"]),
   ("market", ["markt", "market", "verkauf", "sales", "zulassung", "registration", "statistik", "statistic", "preis", "price", "trÅ¾iÅ¡te"]),
   ("technology", ["technologie", "technology", "update", "software", "ota", "autopilot", "fsd", "tuning", "upgrade", "tehnologija"]),
   ("infrastructure", ["infrastruktur", "infrastructure", "netzwerk", "network", "ausbau", "expansion", "strom", "grid", "mreÅ¾a"])]

/-- Python `needle in hay` on strings: contiguous substring test. -/
def py_in (needle hay : String) : Bool :=
  decide (needle.data <:+: hay.data)

/-- Python `str.lower()`, character by character (ASCII case mapping). -/
def py_lower (s : String) : String :=
  String.mk (s.data.map Char.toLower)

/-- The lowercased `title + " " + summary` text that `categorize_article`
scans for keywords. -/
def category_text (title summary : String) : String :=
  py_lower (title ++ " " ++ summary)

/-- The function `categorize_article`: a category is appended when any of its keywords
occurs in the text; if none matched the result is `["general"]`. -/
def categorize_article (title summary : String) : List String :=
  let text := category_text title summary
  let categories :=
    (NEWS_CATEGORIES.filter (fun p => p.2.any (fun kw => py_in kw text))).map Prod.fst
  if categories = [] then ["general"] else categories

/-!
`hashlib.md5(url.encode()).hexdigest()[:12]` — a full executable MD5
(RFC 1321) over the UTF-8 bytes of the link, on `Nat` with explicit
reduction modulo `2 ^ 32`.
-/

/-- Reduce to a 32-bit word. -/
def w32 (n : Nat) : Nat := n % 4294967296

/-- Bitwise complement on 32 bits. -/
def wnot (n : Nat) : Nat := 4294967295 - w32 n

/-- Left rotation on 32 bits. -/
def rotl (x s : Nat) : Nat :=
  w32 ((w32 x) <<< s) ||| ((w32 x) >>> (32 - s))

/-- UTF-8 encoding of one character (Python `str.encode()`). -/
def utf8_bytes (c : Char) : List Nat :=
  let n := c.toNat
  if n < 128 then [n]
  else if n < 2048 then [192 + n / 64, 128 + n % 64]
  else if n < 65536 then [224 + n / 4096, 128 + n / 64 % 64, 128 + n % 64]
  else [240 + n / 262144, 128 + n / 4096 % 64, 128 + n / 64 % 64, 128 + n % 64]

/-- UTF-8 bytes of a string. -/
def str_bytes (s : String) : List Nat :=
  (s.data.map utf8_bytes).flatten

/-- The 64 MD5 sine-derived constants. -/
def md5_K : List Nat :=
  [3614090360, 3905402710, 606105819, 3250441966, 4118548399, 1200080426, 2821735955, 4249261313,
   1770035416, 2336552879, 4294925233, 2304563134, 1804603682, 4254626195, 2792965006, 1236535329,
   4129170786, 3225465664, 643717713, 3921069994, 3593408605, 38016083, 3634488961, 3889429448,
   568446438, 3275163606, 4107603335, 1163531501, 2850285829, 4243563512, 1735328473, 2368359562,
   4294588738, 2272392833, 1839030562, 4259657740, 2763975236, 1272893353, 4139469664, 3200236656,
   681279174, 3936430074, 3572445317, 76029189, 3654602809, 3873151461, 530742520, 3299628645,
   4096336452, 1126891415, 2878612391, 4237533241, 1700485571, 2399980690, 4293915773, 2240044497,
   1873313359, 4264355552, 2734768916, 1309151649, 4149444226, 3174756917, 718787259, 3951481745]

/-- The 64 MD5 per-round left-rotation amounts. -/
def md5_s : List Nat :=
  [7, 12, 17, 22, 7, 12, 17, 22, 7, 12, 17, 22, 7, 12, 17, 22,
   5, 9, 14, 20, 5, 9, 14, 20, 5, 9, 14, 20, 5, 9, 14, 20,
   4, 11, 16, 23, 4, 11, 16, 23, 4, 11, 16, 23, 4, 11, 16, 23,
   6, 10, 15, 21, 6, 10, 15, 21, 6, 10, 15, 21, 6, 10, 15, 21]

/-- MD5 padding: append `0x80`, zero-fill to 56 mod 64, then the
original bit length in 8 little-endian bytes. -/
def md5_pad (msg : List Nat) : List Nat :=
  let bitLen := (8 * msg.length) % 18446744073709551616
  let padZeros := (119 - msg.length % 64) % 64
  msg ++ [128] ++ List.replicate padZeros 0 ++
    (List.range 8).map (fun i => bitLen / 256 ^ i % 256)

/-- Split a byte list into 64-byte blocks (fuel makes the recursion
structural; each step drops at least one element). -/
def chunks64_go : Nat → List Nat → List (List Nat)
  | 0, _ => []
  | _, [] => []
  | fuel + 1, b :: rest => (b :: rest).take 64 :: chunks64_go fuel ((b :: rest).drop 64)

/-- Split a byte list into 64-byte blocks. -/
def chunks64 (l : List Nat) : List (List Nat) := chunks64_go l.length l

/-- The j-th little-endian 32-bit word of a 64-byte block. -/
def md5_word (block : List Nat) (j : Nat) : Nat :=
  block.getD (4 * j) 0 + 256 * block.getD (4 * j + 1) 0 +
    65536 * block.getD (4 * j + 2) 0 + 16777216 * block.getD (4 * j + 3) 0

/-- One MD5 round operation on the state `(a, b, c, d)`. -/
def md5_op (block : List Nat) (st : Nat × Nat × Nat × Nat) (i : Nat) : Nat × Nat × Nat × Nat :=
  let (a, b, c, d) := st
  let f :=
    if i < 16 then (b &&& c) ||| (wnot b &&& d)
    else if i < 32 then (d &&& b) ||| (wnot d &&& c)
    else if i < 48 then b ^^^ c ^^^ d
    else c ^^^ (b ||| wnot d)
  let g :=
    if i < 16 then i
    else if i < 32 then (5 * i + 1) % 16
    else if i < 48 then (3 * i + 5) % 16
    else (7 * i) % 16
  let tmp := w32 (a + f + md5_K.getD i 0 + md5_word block g)
  (d, w32 (b + rotl tmp (md5_s.getD i 0)), b, c)

/-- Process one 64-byte block into the running MD5 state. -/
def md5_block (st : Nat × Nat × Nat × Nat) (block : List Nat) : Nat × Nat × Nat × Nat :=
  let (a0, b0, c0, d0) := st
  let (a, b, c, d) := (List.range 64).foldl (md5_op block) (a0, b0, c0, d0)
  (w32 (a0 + a), w32 (b0 + b), w32 (c0 + c), w32 (d0 + d))

/-- MD5 state after padding and digesting a whole message. -/
def md5_core (msg : List Nat) : Nat × Nat × Nat × Nat :=
  (chunks64 (md5_pad msg)).foldl md5_block (1732584193, 4023233417, 2562383102, 271733878)

/-- The four bytes of a 32-bit word, little-endian. -/
def word_le_bytes (w : Nat) : List Nat :=
  [w % 256, w / 256 % 256, w / 65536 % 256, w / 16777216 % 256]

/-- The 16-byte MD5 digest of a message. -/
def md5_digest_bytes (msg : List Nat) : List Nat :=
  match md5_core msg with
  | (a, b, c, d) => word_le_bytes a ++ word_le_bytes b ++ word_le_bytes c ++ word_le_bytes d

/-- The sixteen lowercase hex digit characters. -/
def hex_digit_chars : List Char := "0123456789abcdef".data

/-- Hex digit character for a nibble (`%x` formatting of a value below
16; the reduction keeps the function total). -/
def nibble_char (n : Nat) : Char := Nat.digitChar (n % 16)

/-- Two hex characters of one byte. -/
def byte_hex (b : Nat) : List Char := [nibble_char (b / 16 % 16), nibble_char (b % 16)]

/-- The digest `hashlib.md5(url.encode()).hexdigest()` as a character list. -/
def md5_hexdigest (url : String) : List Char :=
  ((md5_digest_bytes (str_bytes url)).map byte_hex).flatten

/-- The function `generate_article_id`: the first 12 hex characters of the MD5 of the
UTF-8 encoded link. -/
def generate_article_id (url : String) : String :=
  String.mk ((md5_hexdigest url).take 12)

/-!
Model of one raw feed entry and of `fetch_single_feed`.  Every
`hasattr`-guarded optional attribute is an explicit sum type; the `try`
blocks around `datetime(*...)` are the `bad` constructor; the places
where dynamic attribute access can raise outside those local `try`
blocks (the lead-image resolution, `entry.media_content[0].get(...)` on
a malformed element) are the `raises` constructor, which propagates to
the single `try/except` wrapping the whole entry loop.
-/

/-- Fields `published_parsed` / `updated_parsed`: absent-or-falsy, a value whose
`datetime(*t[:6])` conversion succeeds (carried as its `isoformat()`
string), or one whose conversion raises (caught locally). -/
inductive TimeField where
  | missing
  | ok (iso : String)
  | bad
deriving DecidableEq

/-- Fields `summary` / `description`: attribute present or absent. -/
inductive TextField where
  | missing
  | val (s : String)
deriving DecidableEq

/-- Field `media_content`: absent-or-empty, a first element whose `get('url')`
yields the given value, or a malformed first element whose access
raises. -/
inductive MediaField where
  | missing
  | first (url : Option String)
  | raises
deriving DecidableEq

/-- One element of `entry.enclosures`. -/
structure Enclosure where
  type : Option String
  href : Option String
deriving DecidableEq

/-- A raw feed entry as `fetch_single_feed` reads it. -/
structure Entry where
  published_parsed : TimeField
  updated_parsed : TimeField
  summary : TextField
  description : TextField
  media_content : MediaField
  enclosures : List Enclosure
  title : Option String
  link : Option String
deriving DecidableEq

/-- The publication-timestamp resolution of `fetch_single_feed`:
`published_parsed`, else `updated_parsed`, with any conversion failure
and the no-attribute case falling back to the current fetch time. -/
def resolve_pub_date (now : String) : TimeField → TimeField → String
  | .ok iso, _ => iso
  | .bad, _ => now
  | .missing, .ok iso => iso
  | .missing, .bad => now
  | .missing, .missing => now

/-- Summary extraction: `summary` if present, else `description`, else
the empty string, cleaned by `clean_html`. -/
def resolve_summary : TextField → TextField → String
  | .val s, _ => clean_html s
  | .missing, .val s => clean_html s
  | .missing, .missing => ""

/-- Lead-image resolution: prefer `media_content[0]['url']`, else scan
`enclosures` for the first entry whose type starts with `image`.  A
malformed `media_content` raises (modelled as `Except.error`). -/
def resolve_image (m : MediaField) (encs : List Enclosure) : Except Unit (Option String) :=
  match m with
  | .raises => .error ()
  | .first u => .ok u
  | .missing =>
    .ok (match encs.find? (fun e => (e.type.getD "").startsWith "image") with
         | some e => e.href
         | none => none)

/-- Build the normalized article of one entry (the dict literal in the
entry loop), or propagate the exception of a malformed entry. -/
def process_entry (cfg : FeedConfig) (now : String) (e : Entry) : Except Unit Article :=
  let pub := resolve_pub_date now e.published_parsed e.updated_parsed
  let summ := resolve_summary e.summary e.description
  match resolve_image e.media_content e.enclosures with
  | .error _ => .error ()
  | .ok img =>
    let title := clean_html (e.title.getD "Kein Titel")
    let link := e.link.getD ""
    .ok { id := generate_article_id link
          title := title
          summary := summ
          url := link
          source := cfg.name
          language := cfg.lang
          region := cfg.region
          published := some pub
          image_url := img
          categories := categorize_article title summ }

/-- The entry loop of `fetch_single_feed`: one `try/except` wraps the
whole loop, so an exception while processing an entry returns the
articles accumulated so far and drops the remaining entries. -/
def process_entries (cfg : FeedConfig) (now : String) : List Entry → List Article
  | [] => []
  | e :: rest =>
    match process_entry cfg now e with
    | .error _ => []
    | .ok a => a :: process_entries cfg now rest

/-- Outcome of the HTTP fetch of one feed: a raised transport error or
timeout, or a response with a status code whose body parses into a list
of entries or raises. -/
inductive FetchOutcome where
  | failure
  | response (status : Nat) (parsed : Except Unit (List Entry))

/-- The function `fetch_single_feed`: transport errors, non-200 statuses and parse
failures all yield an empty list; otherwise at most 10 entries are
processed. -/
def fetch_single_feed (cfg : FeedConfig) (now : String) (out : FetchOutcome) : List Article :=
  match out with
  | .failure => []
  | .response status parsed =>
    if status = 200 then
      match parsed with
      | .error _ => []
      | .ok entries => process_entries cfg now (entries.take 10)
    else []

/-- The `NEWS_FEEDS` registry, grouped by region key. -/
def NEWS_FEEDS : List (String × List FeedConfig) :=
  [("swiss",
    [⟨"https://www.tcs.ch/de/testberichte-ratgeber/ratgeber/rss/elektromobilitaet.rss", "TCS ElektromobilitÃ¤t", "de", "CH"⟩,
     ⟨"https://www.blick.ch/auto/rss.xml", "Blick Auto", "de", "CH"⟩]),
   ("german",
    [⟨"https://www.electrive.net/feed/", "Electrive.net", "de", "DE"⟩,
     ⟨"https://ecomento.de/feed/", "Ecomento", "de", "DE"⟩,
     ⟨"https://www.elektroauto-news.net/feed/", "Elektroauto-News", "de", "DE"⟩,
     ⟨"https://teslamag.de/feed", "Teslamag", "de", "DE"⟩,
     ⟨"https://www.golem.de/rss.php?tp=auto", "Golem Auto", "de", "DE"⟩]),
   ("international",
    [⟨"https://electrek.co/feed/", "Electrek", "en", "US"⟩,
     ⟨"https://insideevs.com/rss/news/all/", "InsideEVs", "en", "US"⟩,
     ⟨"https://cleantechnica.com/feed/", "CleanTechnica", "en", "US"⟩,
     ⟨"https://www.greencarreports.com/rss/news", "Green Car Reports", "en", "US"⟩,
     ⟨"https://chargedevs.com/feed/", "Charged EVs", "en", "US"⟩]),
   ("balkan",
    [⟨"https://www.netokracija.rs/feed", "Netokracija RS", "sr", "RS"⟩,
     ⟨"https://www.netokracija.com/feed", "Netokracija HR", "hr", "HR"⟩,
     ⟨"https://www.automarket.hr/rss/vijesti", "Automarket HR", "hr", "HR"⟩,
     ⟨"https://www.automobili.hr/rss.xml", "Automobili HR", "hr", "HR"⟩])]

/-- The flattened registry, `[f for feeds in NEWS_FEEDS.values() for f in feeds]`. -/
def all_feed_configs : List FeedConfig :=
  (NEWS_FEEDS.map Prod.snd).flatten

/-- The sort key of the merge step, `x.get('published', '') or ''`:
a missing or empty timestamp becomes the empty string, which is the
least key, so such articles sort as oldest.  Python compares strings
lexicographically by code point, which is the lexicographic order on
the character list. -/
def pub_key (a : Article) : List Char := (a.published.getD "").data

/-- Descending published order: `a` before `b` when the key of `a` is at
least the key of `b`.  `list.sort(key=..., reverse=True)` is a stable
descending sort, modelled by `insertionSort` with this relation. -/
def published_order (a b : Article) : Prop := pub_key b ≤ pub_key a

instance : DecidableRel published_order :=
  fun a b => inferInstanceAs (Decidable (pub_key b ≤ pub_key a))

instance : IsTotal Article published_order :=
  ⟨fun a b => (le_total (pub_key b) (pub_key a)).imp id id⟩

instance : IsTrans Article published_order :=
  ⟨fun _ _ _ h₁ h₂ => le_trans h₂ h₁⟩

/-- The dedup key, `article['title'].lower()[:50]`. -/
def title_key (a : Article) : String :=
  String.mk ((py_lower a.title).data.take 50)

/-- The dedup walk with its seen set of title keys. -/
def dedup_go (seen : List String) : List Article → List Article
  | [] => []
  | a :: rest =>
    if title_key a ∈ seen then dedup_go seen rest
    else a :: dedup_go (title_key a :: seen) rest

/-- Duplicate-title removal, keeping the first occurrence in sort order. -/
def dedup_by_title (l : List Article) : List Article := dedup_go [] l

/-- The concatenation of the per-feed results (the `all_articles` list
of `fetch_all_feeds`): `asyncio.gather(..., return_exceptions=True)`
joins every task, and since `fetch_single_feed` returns a list on every
path, each result passes the `isinstance(result, list)` filter. -/
def fetch_concat (now : String) (feeds : List (FeedConfig × FetchOutcome)) : List Article :=
  (feeds.map (fun p => fetch_single_feed p.1 now p.2)).flatten

/-- The function `fetch_all_feeds`: concatenate, sort newest-first, deduplicate. -/
def fetch_all_feeds (now : String) (feeds : List (FeedConfig × FetchOutcome)) : List Article :=
  dedup_by_title (List.insertionSort published_order (fetch_concat now feeds))

/-!
The news cache and the `GET /news` endpoint.  Wall-clock instants are
seconds (`Nat`); `timedelta(hours=1)` is 3600.
-/

/-- The global `news_cache` dict (its fixed `cache_duration` is the
constant below). -/
structure NewsCache where
  articles : List Article
  last_updated : Option Nat
deriving DecidableEq

/-- Python `timedelta(hours=1)` in seconds. -/
def cache_duration : Nat := 3600

/-- The `cache_valid` condition of `get_news`: a timestamp exists, it is
younger than one hour, the stored list is non-empty, and no forced
refresh was requested. -/
def cache_valid (c : NewsCache) (now : Nat) (refresh : Bool) : Bool :=
  match c.last_updated with
  | none => false
  | some t => decide (now - t < cache_duration) && decide (0 < c.articles.length) && !refresh

/-- The `region_codes` allow-list of `get_news`. -/
def region_codes : List (String × List String) :=
  [("swiss", ["CH"]),
   ("german", ["DE"]),
   ("international", ["US", "UK", "EU"]),
   ("balkan", ["RS", "HR", "SI", "BA"])]

/-- Lookup `region_codes.get(region, [])`. -/
def lookup_regions (r : String) : List String :=
  match region_codes.find? (fun p => p.1 == r) with
  | some p => p.2
  | none => []

/-- The region filter of `get_news`.  A `None` parameter and an empty
string are both falsy in `if region:`, so they skip the filter. -/
def filter_region (articles : List Article) : Option String → List Article
  | none => articles
  | some r =>
    if r = "" then articles
    else articles.filter (fun a => (lookup_regions r).contains a.region)

/-- The language filter of `get_news` (`if language:` is falsy for
`None` and the empty string). -/
def filter_language (articles : List Article) : Option String → List Article
  | none => articles
  | some lg =>
    if lg = "" then articles
    else articles.filter (fun a => a.language == lg)

/-- The category filter of `get_news` (`if category:` is falsy for
`None` and the empty string). -/
def filter_category (articles : List Article) : Option String → List Article
  | none => articles
  | some c =>
    if c = "" then articles
    else articles.filter (fun a => a.categories.contains c)

/-- The three query filters of `get_news`, in source order: region,
then language, then category. -/
def apply_filters (articles : List Article) (region category language : Option String) : List Article :=
  filter_category (filter_language (filter_region articles region) language) category

/-- Python `articles[:limit]` for an `int` limit: nonnegative limits
take a prefix; negative limits drop that many elements from the end. -/
def py_slice_to (limit : Int) (l : List α) : List α :=
  if 0 ≤ limit then l.take limit.toNat else l.take (l.length - (-limit).toNat)

/-- The JSON payload of `GET /news` (the float `cache_age_minutes`
field, touched by no claim, is not modelled). -/
structure NewsResponse where
  articles : List Article
  total : Nat
  sources_count : Nat
  filter_region : Option String
  filter_category : Option String
  filter_language : Option String
deriving DecidableEq

/-- The endpoint `GET /news` as a state transition: from the cache, the current time,
the query parameters and the articles `fetch_all_feeds` would produce if
invoked, compute the new cache, the response, and whether an aggregation
pass was invoked. -/
def get_news (cache : NewsCache) (now : Nat)
    (region category language : Option String) (limit : Int) (refresh : Bool)
    (fresh : List Article) : NewsCache × NewsResponse × Bool :=
  let valid := cache_valid cache now refresh
  let cache' := if valid then cache else { articles := fresh, last_updated := some now }
  let filtered := apply_filters cache'.articles region category language
  let limited := py_slice_to limit filtered
  (cache',
   { articles := limited
     total := limited.length
     sources_count := all_feed_configs.length
     filter_region := region
     filter_category := category
     filter_language := language },
   !valid)

/-- A failing fetch in the sense of the spec: a raised transport error
or timeout, a non-success status, or a parse failure. -/
def failed_outcome : FetchOutcome → Bool
  | .failure => true
  | .response _ (.error _) => true
  | .response s (.ok _) => s != 200

/-- Whether resolving the lead image of this entry raises (the only
per-entry step of the loop that can raise outside a local `try`). -/
def media_raises : MediaField → Bool
  | .raises => true
  | _ => false

/-- The registry key names of the nine categories plus the fallback. -/
def category_names : List String := NEWS_CATEGORIES.map Prod.fst

/-- The languages occurring in the feed registry. -/
def registry_langs : List String := ["de", "en", "sr", "hr"]

/-!
Concrete fixtures used by the closed witness and counterexample
theorems below.  The two feed configurations are the two `swiss`
entries of the registry.
-/

/-- The TCS feed of the registry. -/
def cfg_tcs : FeedConfig :=
  ⟨"https://www.tcs.ch/de/testberichte-ratgeber/ratgeber/rss/elektromobilitaet.rss", "TCS ElektromobilitÃ¤t", "de", "CH"⟩

/-- The Blick Auto feed of the registry. -/
def cfg_blick : FeedConfig := ⟨"https://www.blick.ch/auto/rss.xml", "Blick Auto", "de", "CH"⟩

/-- A fetch instant used by the fixtures. -/
def now_s : String := "2025-01-01T13:00:00+00:00"

/-- An entry titled "Neues Modell" published at T. -/
def entry_new : Entry :=
  ⟨.ok "2025-01-01T12:00:00+00:00", .missing, .missing, .missing, .missing, [],
   some "Neues Modell", some "https://www.tcs.ch/news/1"⟩

/-- An entry with the same title published at T minus ten minutes, with
a different link. -/
def entry_old : Entry :=
  ⟨.ok "2025-01-01T11:50:00+00:00", .missing, .missing, .missing, .missing, [],
   some "Neues Modell", some "https://www.blick.ch/news/2"⟩

/-- An entry with a distinct title. -/
def entry_batt : Entry :=
  ⟨.ok "2025-01-01T11:00:00+00:00", .missing, .missing, .missing, .missing, [],
   some "Batterie Rekord", some "https://www.tcs.ch/news/3"⟩

/-- An entry whose malformed `media_content` raises during image
resolution. -/
def entry_bad : Entry :=
  ⟨.ok "2025-01-01T10:00:00+00:00", .missing, .missing, .missing, .raises, [],
   some "Kaputter Eintrag", some "https://www.tcs.ch/news/9"⟩

/-- The normalized article of `entry_new` fetched from the TCS feed. -/
def art_new : Article :=
  { id := generate_article_id "https://www.tcs.ch/news/1"
    title := "Neues Modell"
    summary := ""
    url := "https://www.tcs.ch/news/1"
    source := "TCS ElektromobilitÃ¤t"
    language := "de"
    region := "CH"
    published := some "2025-01-01T12:00:00+00:00"
    image_url := none
    categories := ["vehicles"] }

/-- The normalized article of `entry_old` fetched from the Blick feed. -/
def art_old : Article :=
  { id := generate_article_id "https://www.blick.ch/news/2"
    title := "Neues Modell"
    summary := ""
    url := "https://www.blick.ch/news/2"
    source := "Blick Auto"
    language := "de"
    region := "CH"
    published := some "2025-01-01T11:50:00+00:00"
    image_url := none
    categories := ["vehicles"] }

/-- The normalized article of `entry_batt` fetched from the TCS feed. -/
def art_batt : Article :=
  { id := generate_article_id "https://www.tcs.ch/news/3"
    title := "Batterie Rekord"
    summary := ""
    url := "https://www.tcs.ch/news/3"
    source := "TCS ElektromobilitÃ¤t"
    language := "de"
    region := "CH"
    published := some "2025-01-01T11:00:00+00:00"
    image_url := none
    categories := ["battery"] }

/-- The two-source scenario of the spec: the same story from two feeds,
ten minutes apart. -/
def scene_feeds : List (FeedConfig × FetchOutcome) :=
  [(cfg_tcs, .response 200 (.ok [entry_new])), (cfg_blick, .response 200 (.ok [entry_old]))]

/-- A third distinctly-titled entry, for the three-article fixture. -/
def entry_lade : Entry :=
  ⟨.ok "2025-01-01T09:00:00+00:00", .missing, .missing, .missing, .missing, [],
   some "Ausbau der Ladestationen", some "https://www.blick.ch/news/4"⟩

/-- A successful fetch yielding three distinctly-titled entries. -/
def outcome_b3 : FetchOutcome :=
  .response 200 (.ok [entry_new, entry_batt, entry_lade])

/-- A 501-character input for the truncation bound. -/
def long_text : String := String.mk (List.replicate 501 'a')

/-!
Lemmas about the deduplication walk and the sort step.
-/

theorem dedup_go_sublist (seen : List String) (l : List Article) :
    List.Sublist (dedup_go seen l) l := by
  induction l generalizing seen with
  | nil => simp [dedup_go]
  | cons a rest ih =>
    rw [dedup_go]
    by_cases h : title_key a ∈ seen
    · rw [if_pos h]
      exact (ih seen).cons a
    · rw [if_neg h]
      exact (ih (title_key a :: seen)).cons₂ a

theorem dedup_go_not_mem_seen (seen : List String) (l : List Article) :
    ∀ u ∈ dedup_go seen l, title_key u ∉ seen := by
  induction l generalizing seen with
  | nil => intro u hu; simp [dedup_go] at hu
  | cons a rest ih =>
    intro u hu
    rw [dedup_go] at hu
    by_cases h : title_key a ∈ seen
    · rw [if_pos h] at hu
      exact ih seen u hu
    · rw [if_neg h] at hu
      rcases List.mem_cons.mp hu with rfl | hu'
      · exact h
      · have hnotin := ih (title_key a :: seen) u hu'
        exact fun hs => hnotin (List.mem_cons_of_mem _ hs)

theorem dedup_go_pairwise (seen : List String) (l : List Article) :
    (dedup_go seen l).Pairwise (fun u v => title_key u ≠ title_key v) := by
  induction l generalizing seen with
  | nil => simp [dedup_go]
  | cons a rest ih =>
    rw [dedup_go]
    by_cases h : title_key a ∈ seen
    · rw [if_pos h]
      exact ih seen
    · rw [if_neg h]
      refine List.Pairwise.cons ?_ (ih _)
      intro u hu he
      exact dedup_go_not_mem_seen _ _ u hu (he ▸ List.mem_cons_self _ _)

theorem dedup_go_rep (seen : List String) (l : List Article)
    (hp : l.Pairwise published_order) :
    ∀ a ∈ l, title_key a ∉ seen →
      ∃ u ∈ dedup_go seen l, title_key u = title_key a ∧ pub_key a ≤ pub_key u := by
  induction l generalizing seen with
  | nil => intro a ha; simp at ha
  | cons b rest ih =>
    intro a ha hs
    rw [dedup_go]
    rcases List.mem_cons.mp ha with rfl | ha'
    · rw [if_neg hs]
      exact ⟨a, List.mem_cons_self _ _, rfl, le_refl _⟩
    · have hb : pub_key a ≤ pub_key b := (List.pairwise_cons.mp hp).1 a ha'
      have hrest := (List.pairwise_cons.mp hp).2
      by_cases h : title_key b ∈ seen
      · rw [if_pos h]
        exact ih seen hrest a ha' hs
      · rw [if_neg h]
        by_cases hk : title_key a = title_key b
        · exact ⟨b, List.mem_cons_self _ _, hk.symm, hb⟩
        · have hs' : title_key a ∉ title_key b :: seen := by
            intro hmem
            rcases List.mem_cons.mp hmem with h1 | h2
            · exact hk h1
            · exact hs h2
          obtain ⟨u, hu, hku, hpu⟩ := ih (title_key b :: seen) hrest a ha' hs'
          exact ⟨u, List.mem_cons_of_mem _ hu, hku, hpu⟩

theorem dedup_go_eq_self (seen : List String) (l : List Article)
    (hk : l.Pairwise fun u v => title_key u ≠ title_key v)
    (hs : ∀ a ∈ l, title_key a ∉ seen) : dedup_go seen l = l := by
  induction l generalizing seen with
  | nil => rfl
  | cons a rest ih =>
    rw [dedup_go, if_neg (hs a (List.mem_cons_self _ _))]
    congr 1
    refine ih (title_key a :: seen) (List.pairwise_cons.mp hk).2 ?_
    intro b hb hmem
    rcases List.mem_cons.mp hmem with h1 | h2
    · exact (List.pairwise_cons.mp hk).1 b hb h1.symm
    · exact hs b (List.mem_cons_of_mem _ hb) h2

theorem sorted_articles (l : List Article) :
    (List.insertionSort published_order l).Pairwise published_order :=
  List.sorted_insertionSort published_order l

/-- C4: every aggregated result is pairwise (hence adjacently) sorted
with descending published keys, and an article with a missing or empty
published value has the minimal key, so it sorts as oldest.  The
descending order survives the deduplication step because the dedup walk
returns a sublist of the sorted sequence. -/
theorem fetch_all_feeds_sorted_desc (now : String) (feeds : List (FeedConfig × FetchOutcome)) :
    (fetch_all_feeds now feeds).Pairwise published_order
    ∧ ∀ a b : Article, (a.published = none ∨ a.published = some "") → pub_key a ≤ pub_key b := by
  constructor
  · have hs := sorted_articles (fetch_concat now feeds)
    have hsub := dedup_go_sublist [] (List.insertionSort published_order (fetch_concat now feeds))
    exact hs.sublist hsub
  · intro a b h
    have ha : pub_key a = [] := by
      rcases h with h | h <;> simp [pub_key, h]
    rw [ha]
    exact List.nil_le

/-- C3: the title keys of an aggregated result are pairwise distinct,
and every input article is represented in the result by an article with
the same title key and a published key at least as recent (the kept
occurrence is the most recent one, since the sort precedes the dedup
walk and the walk keeps first occurrences). -/
theorem fetch_all_feeds_dedup_newest (now : String) (feeds : List (FeedConfig × FetchOutcome)) :
    (fetch_all_feeds now feeds).Pairwise (fun u v => title_key u ≠ title_key v)
    ∧ ∀ a ∈ fetch_concat now feeds, ∃ u ∈ fetch_all_feeds now feeds,
        title_key u = title_key a ∧ pub_key a ≤ pub_key u := by
  constructor
  · exact dedup_go_pairwise [] _
  · intro a ha
    have hmem : a ∈ List.insertionSort published_order (fetch_concat now feeds) :=
      (List.perm_insertionSort published_order _).mem_iff.mpr ha
    exact dedup_go_rep [] _ (sorted_articles _) a hmem (by simp)

/-- C2: a failing fetch (transport error, timeout, non-success status or
parse failure) contributes an empty article list, and the aggregate over
a failing source A and a succeeding source B is exactly the merge of
B's articles; when B's title keys are distinct, it is a permutation of
B's fetched articles. -/
theorem fetch_failure_isolation (cfgA cfgB : FeedConfig) (outA outB : FetchOutcome) (now : String)
    (hA : failed_outcome outA = true) :
    fetch_single_feed cfgA now outA = []
    ∧ fetch_all_feeds now [(cfgA, outA), (cfgB, outB)]
        = dedup_by_title (List.insertionSort published_order (fetch_single_feed cfgB now outB))
    ∧ ((fetch_single_feed cfgB now outB).Pairwise (fun u v => title_key u ≠ title_key v) →
        (fetch_all_feeds now [(cfgA, outA), (cfgB, outB)]).Perm (fetch_single_feed cfgB now outB)) := by
  have h1 : fetch_single_feed cfgA now outA = [] := by
    cases outA with
    | failure => rfl
    | response s parsed =>
      simp only [fetch_single_feed]
      by_cases hs : s = 200
      · rw [if_pos hs]
        cases parsed with
        | error err => rfl
        | ok es =>
          simp only [failed_outcome, hs] at hA
          simp at hA
      · rw [if_neg hs]
  have h2 : fetch_concat now [(cfgA, outA), (cfgB, outB)] = fetch_single_feed cfgB now outB := by
    simp [fetch_concat, h1]
  refine ⟨h1, ?_, ?_⟩
  · rw [fetch_all_feeds, h2]
  · intro hdist
    have hperm : (List.insertionSort published_order (fetch_single_feed cfgB now outB)).Perm
        (fetch_single_feed cfgB now outB) := List.perm_insertionSort _ _
    have hd := (hperm.pairwise_iff (fun h e => h e.symm)).mpr hdist
    rw [fetch_all_feeds, h2, dedup_by_title, dedup_go_eq_self [] _ hd (by simp)]
    exact hperm

theorem process_entry_ok (cfg : FeedConfig) (now : String) (e : Entry)
    (h : media_raises e.media_content = false) :
    ∃ a, process_entry cfg now e = .ok a := by
  unfold process_entry
  cases hri : resolve_image e.media_content e.enclosures with
  | error err =>
    cases hm : e.media_content with
    | raises => simp [media_raises, hm] at h
    | missing => rw [hm] at hri; simp [resolve_image] at hri
    | first u => rw [hm] at hri; simp [resolve_image] at hri
  | ok img =>
    exact ⟨_, rfl⟩

theorem process_entry_error (cfg : FeedConfig) (now : String) (e : Entry)
    (h : media_raises e.media_content = true) :
    process_entry cfg now e = .error () := by
  cases hm : e.media_content with
  | raises => simp only [process_entry, resolve_image, hm]
  | missing => simp [media_raises, hm] at h
  | first u => simp [media_raises, hm] at h

theorem process_entries_all_ok_length (cfg : FeedConfig) (now : String) :
    ∀ es : List Entry, (∀ e ∈ es, media_raises e.media_content = false) →
      (process_entries cfg now es).length = es.length := by
  intro es
  induction es with
  | nil => intro _; rfl
  | cons e rest ih =>
    intro h
    obtain ⟨a, ha⟩ := process_entry_ok cfg now e (h e (List.mem_cons_self _ _))
    simp only [process_entries, ha, List.length_cons]
    rw [ih fun x hx => h x (List.mem_cons_of_mem _ hx)]

theorem process_entries_abort (cfg : FeedConfig) (now : String)
    (es₁ es₂ : List Entry) (bad : Entry)
    (h1 : ∀ e ∈ es₁, media_raises e.media_content = false)
    (hbad : media_raises bad.media_content = true) :
    process_entries cfg now (es₁ ++ bad :: es₂) = process_entries cfg now es₁ := by
  induction es₁ with
  | nil =>
    simp only [List.nil_append, process_entries, process_entry_error cfg now bad hbad]
  | cons e rest ih =>
    obtain ⟨a, ha⟩ := process_entry_ok cfg now e (h1 e (List.mem_cons_self _ _))
    simp only [List.cons_append, process_entries, ha]
    exact congrArg (List.cons a) (ih fun x hx => h1 x (List.mem_cons_of_mem _ hx))

/-- C5 (amended): a timestamp-parse failure never aborts the entry loop
(the fallback is local), and when no entry raises during image
resolution every entry contributes one article; but an entry that does
raise aborts the loop, keeping only the articles accumulated before
it — the remaining entries of that feed are dropped. -/
theorem process_entries_fault_isolation (cfg : FeedConfig) (now : String)
    (es es₁ es₂ : List Entry) (bad : Entry)
    (hok : ∀ e ∈ es, media_raises e.media_content = false)
    (h1 : ∀ e ∈ es₁, media_raises e.media_content = false)
    (hbad : media_raises bad.media_content = true) :
    (process_entries cfg now es).length = es.length
    ∧ process_entries cfg now (es₁ ++ bad :: es₂) = process_entries cfg now es₁ :=
  ⟨process_entries_all_ok_length cfg now es hok,
   process_entries_abort cfg now es₁ es₂ bad h1 hbad⟩

/-- C6: `clean_html` maps empty input to the empty string, and whenever
the cleaned text exceeds 500 characters, the returned string has length
at most 503 (in fact exactly 503) and ends in the ellipsis marker. -/
theorem clean_html_spec (text : String) :
    clean_html "" = ""
    ∧ ((cleaned_text text).length > 500 →
        (clean_html text).data.length ≤ 503
        ∧ List.IsSuffix "...".data (clean_html text).data) := by
  refine ⟨rfl, ?_⟩
  intro h
  have htext : text ≠ "" := by
    intro he
    rw [he] at h
    have h0 : (cleaned_text "").length = 0 := by decide
    omega
  rw [clean_html, if_neg htext, if_pos h]
  constructor
  · show ((cleaned_text text).take 500 ++ "...".data).length ≤ 503
    rw [List.length_append, List.length_take]
    have h3 : "...".data.length = 3 := rfl
    omega
  · exact List.suffix_append _ _

theorem any_kw_iff (p : String × List String) (text : String) :
    (p.2.any fun kw => py_in kw text) = true ↔ ∃ kw ∈ p.2, kw.data <:+: text.data := by
  simp [List.any_eq_true, py_in]

/-- C7: a taxonomy category is in the result exactly when one of its
keyword stems occurs as a substring of the lowercased
`title + " " + summary` text; the result is never empty; and when no
category matches, the result is exactly `["general"]` (so in particular
`categorize_article "" "" = ["general"]`, established in the witness). -/
theorem categorize_article_spec (t s : String) :
    categorize_article t s ≠ []
    ∧ (∀ p ∈ NEWS_CATEGORIES,
        (p.1 ∈ categorize_article t s ↔ ∃ kw ∈ p.2, kw.data <:+: (category_text t s).data))
    ∧ ((∀ p ∈ NEWS_CATEGORIES, ∀ kw ∈ p.2, ¬ kw.data <:+: (category_text t s).data) →
        categorize_article t s = ["general"]) := by
  set m := (NEWS_CATEGORIES.filter fun p => p.2.any fun kw => py_in kw (category_text t s)).map
    Prod.fst with hm
  have hcat : categorize_article t s = if m = [] then ["general"] else m := rfl
  refine ⟨?_, ?_, ?_⟩
  · by_cases he : m = []
    · rw [hcat, if_pos he]
      simp
    · rw [hcat, if_neg he]
      exact he
  · intro p hp
    constructor
    · intro hmem
      rw [hcat] at hmem
      by_cases he : m = []
      · rw [if_pos he] at hmem
        have hpg : p.1 = "general" := by simpa using hmem
        have hne : ∀ q ∈ NEWS_CATEGORIES, q.1 ≠ "general" := by decide
        exact absurd hpg (hne p hp)
      · rw [if_neg he] at hmem
        rw [hm] at hmem
        rcases List.mem_map.mp hmem with ⟨q, hqf, hq1⟩
        rcases List.mem_filter.mp hqf with ⟨hqmem, hqany⟩
        have hdet : ∀ p' ∈ NEWS_CATEGORIES, ∀ q' ∈ NEWS_CATEGORIES, p'.1 = q'.1 → p'.2 = q'.2 := by
          decide
        have hq2 : q.2 = p.2 := hdet q hqmem p hp hq1
        rw [← hq2]
        exact (any_kw_iff q _).mp hqany
    · intro hex
      have hany : (p.2.any fun kw => py_in kw (category_text t s)) = true := (any_kw_iff p _).mpr hex
      have hpf : p ∈ NEWS_CATEGORIES.filter fun q => q.2.any fun kw => py_in kw (category_text t s) :=
        List.mem_filter.mpr ⟨hp, hany⟩
      have hpm : p.1 ∈ m := by
        rw [hm]
        exact List.mem_map_of_mem Prod.fst hpf
      have he : m ≠ [] := by
        intro h0
        rw [h0] at hpm
        simp at hpm
      rw [hcat, if_neg he]
      exact hpm
  · intro hnone
    have hfil : (NEWS_CATEGORIES.filter fun p => p.2.any fun kw => py_in kw (category_text t s)) = [] := by
      rw [List.filter_eq_nil_iff]
      intro p hp hany
      obtain ⟨kw, hkw, hinf⟩ := (any_kw_iff p _).mp (by simpa using hany)
      exact hnone p hp kw hkw hinf
    have he : m = [] := by rw [hm, hfil]; rfl
    rw [hcat, if_pos he]

theorem md5_digest_bytes_length (msg : List Nat) : (md5_digest_bytes msg).length = 16 := by
  unfold md5_digest_bytes
  rcases md5_core msg with ⟨a, b, c, d⟩
  simp [word_le_bytes]

theorem byte_hex_flatten_length : ∀ l : List Nat, ((l.map byte_hex).flatten).length = 2 * l.length := by
  intro l
  induction l with
  | nil => rfl
  | cons b rest ih =>
    simp only [List.map_cons, List.flatten_cons, List.length_append, List.length_cons, ih, byte_hex]
    simp [List.length_cons]
    omega

theorem md5_hexdigest_length (u : String) : (md5_hexdigest u).length = 32 := by
  unfold md5_hexdigest
  rw [byte_hex_flatten_length, md5_digest_bytes_length]

theorem nibble_char_mem (n : Nat) : nibble_char n ∈ hex_digit_chars := by
  unfold nibble_char
  have h : n % 16 < 16 := Nat.mod_lt _ (by decide)
  generalize n % 16 = m at h ⊢
  interval_cases m <;> decide

theorem mem_md5_hexdigest (u : String) : ∀ c ∈ md5_hexdigest u, c ∈ hex_digit_chars := by
  intro c hc
  unfold md5_hexdigest at hc
  rw [List.mem_flatten] at hc
  obtain ⟨l, hl, hcl⟩ := hc
  rw [List.mem_map] at hl
  obtain ⟨b, _, rfl⟩ := hl
  simp only [byte_hex, List.mem_cons, List.not_mem_nil, or_false] at hcl
  rcases hcl with rfl | rfl <;> exact nibble_char_mem _

/-- C8: the article identifier is a pure function of the link — equal
links yield equal identifiers — and it is always the 12-character
truncation of the hex MD5 digest of the link, consisting of exactly 12
hex digit characters. -/
theorem generate_article_id_spec (u v : String) (h : u = v) :
    generate_article_id u = generate_article_id v
    ∧ (generate_article_id u).data.length = 12
    ∧ generate_article_id u = String.mk ((md5_hexdigest u).take 12)
    ∧ ∀ c ∈ (generate_article_id u).data, c ∈ hex_digit_chars := by
  refine ⟨by rw [h], ?_, rfl, ?_⟩
  · show ((md5_hexdigest u).take 12).length = 12
    rw [List.length_take, md5_hexdigest_length]
    decide
  · intro c hc
    have hc' : c ∈ md5_hexdigest u := List.take_subset _ _ hc
    exact mem_md5_hexdigest u c hc'

/-- C1 (amended): with the refresh flag unset, a cache populated less
than one hour ago whose stored list is non-empty is served as-is — the
flag recording an aggregation pass is false and the cache is unchanged;
once the elapsed time reaches the one-hour window (or the stored list
is empty, per the counterexample), the single aggregation pass of the
call runs and its result is stored with the new timestamp. -/
theorem get_news_cache_window (cache : NewsCache) (now t : Nat)
    (region category language : Option String) (limit : Int) (fresh : List Article)
    (ht : cache.last_updated = some t) :
    (now - t < cache_duration → cache.articles ≠ [] →
      ((get_news cache now region category language limit false fresh).2.2 = false
       ∧ (get_news cache now region category language limit false fresh).1 = cache
       ∧ (get_news cache now region category language limit false fresh).2.1.articles
           = py_slice_to limit (apply_filters cache.articles region category language)))
    ∧ (cache_duration ≤ now - t → ∀ refresh : Bool,
      ((get_news cache now region category language limit refresh fresh).2.2 = true
       ∧ (get_news cache now region category language limit refresh fresh).1
           = { articles := fresh, last_updated := some now })) := by
  constructor
  · intro h1 h2
    have hlen : 0 < cache.articles.length := by
      cases hc : cache.articles with
      | nil => exact absurd hc h2
      | cons x xs => simp
    have hv : cache_valid cache now false = true := by
      simp only [cache_valid, ht]
      simp [h1, hlen]
    simp [get_news, hv]
  · intro h1 refresh
    have hv : cache_valid cache now refresh = false := by
      simp only [cache_valid, ht]
      simp [Nat.not_lt.mpr h1]
    simp [get_news, hv]

theorem process_entry_fields (cfg : FeedConfig) (now : String) (e : Entry) (a : Article)
    (h : process_entry cfg now e = .ok a) :
    a.language = cfg.lang ∧ a.categories = categorize_article a.title a.summary := by
  unfold process_entry at h
  cases hri : resolve_image e.media_content e.enclosures with
  | error err =>
    rw [hri] at h
    simp at h
  | ok img =>
    rw [hri] at h
    simp only [Except.ok.injEq] at h
    rw [← h]
    exact ⟨rfl, rfl⟩

theorem mem_process_entries (cfg : FeedConfig) (now : String) :
    ∀ (es : List Entry) (a : Article), a ∈ process_entries cfg now es →
      ∃ e, process_entry cfg now e = .ok a := by
  intro es
  induction es with
  | nil => intro a ha; simp [process_entries] at ha
  | cons e rest ih =>
    intro a ha
    rw [process_entries] at ha
    cases hp : process_entry cfg now e with
    | error err =>
      rw [hp] at ha
      simp at ha
    | ok b =>
      rw [hp] at ha
      rcases List.mem_cons.mp ha with rfl | h'
      · exact ⟨e, hp⟩
      · exact ih a h'

theorem mem_fetch_single_feed (cfg : FeedConfig) (now : String) (out : FetchOutcome) (a : Article)
    (h : a ∈ fetch_single_feed cfg now out) :
    ∃ e, process_entry cfg now e = .ok a := by
  cases out with
  | failure => simp [fetch_single_feed] at h
  | response s parsed =>
    simp only [fetch_single_feed] at h
    by_cases hs : s = 200
    · rw [if_pos hs] at h
      cases parsed with
      | error err => simp at h
      | ok es => exact mem_process_entries cfg now _ a h
    · rw [if_neg hs] at h
      simp at h

theorem mem_fetch_concat (now : String) (feeds : List (FeedConfig × FetchOutcome)) (a : Article)
    (h : a ∈ fetch_concat now feeds) :
    ∃ p ∈ feeds, a ∈ fetch_single_feed (p : FeedConfig × FetchOutcome).1 now p.2 := by
  unfold fetch_concat at h
  rw [List.mem_flatten] at h
  obtain ⟨l, hl, hal⟩ := h
  rw [List.mem_map] at hl
  obtain ⟨p, hp, rfl⟩ := hl
  exact ⟨p, hp, hal⟩

theorem mem_fetch_all_feeds (now : String) (feeds : List (FeedConfig × FetchOutcome)) (a : Article)
    (h : a ∈ fetch_all_feeds now feeds) :
    a ∈ fetch_concat now feeds := by
  unfold fetch_all_feeds dedup_by_title at h
  have hsub := dedup_go_sublist [] (List.insertionSort published_order (fetch_concat now feeds))
  have h2 := hsub.subset h
  exact (List.perm_insertionSort published_order _).mem_iff.mp h2

theorem categorize_mem_names (t s : String) :
    ∀ c ∈ categorize_article t s, c ∈ category_names ∨ c = "general" := by
  intro c hc
  have hcat : categorize_article t s =
      if ((NEWS_CATEGORIES.filter fun p =>
            p.2.any fun kw => py_in kw (category_text t s)).map Prod.fst) = []
      then ["general"]
      else (NEWS_CATEGORIES.filter fun p =>
            p.2.any fun kw => py_in kw (category_text t s)).map Prod.fst := rfl
  rw [hcat] at hc
  split at hc
  · right
    simpa using hc
  · left
    rcases List.mem_map.mp hc with ⟨q, hqf, hq1⟩
    have hq : q ∈ NEWS_CATEGORIES := (List.mem_filter.mp hqf).1
    rw [← hq1]
    exact List.mem_map_of_mem Prod.fst hq

theorem article_from_registry (now : String) (feeds : List (FeedConfig × FetchOutcome)) (a : Article)
    (hreg : ∀ p ∈ feeds, (p : FeedConfig × FetchOutcome).1 ∈ all_feed_configs)
    (h : a ∈ fetch_all_feeds now feeds) :
    a.language ∈ registry_langs ∧ ∀ c ∈ a.categories, c ∈ category_names ∨ c = "general" := by
  obtain ⟨p, hp, hmem⟩ := mem_fetch_concat now feeds a (mem_fetch_all_feeds now feeds a h)
  obtain ⟨e, he⟩ := mem_fetch_single_feed p.1 now p.2 a hmem
  obtain ⟨hlang, hcats⟩ := process_entry_fields p.1 now e a he
  constructor
  · rw [hlang]
    have hall : ∀ cfg ∈ all_feed_configs, cfg.lang ∈ registry_langs := by decide
    exact hall p.1 (hreg p hp)
  · rw [hcats]
    exact categorize_mem_names _ _

theorem lookup_regions_unknown (r : String)
    (h : r ∉ ["swiss", "german", "international", "balkan"]) : lookup_regions r = [] := by
  simp only [List.mem_cons, List.not_mem_nil, or_false, not_or] at h
  obtain ⟨h1, h2, h3, h4⟩ := h
  have e1 : (("swiss" : String) == r) = false := beq_eq_false_iff_ne.mpr fun e => h1 e.symm
  have e2 : (("german" : String) == r) = false := beq_eq_false_iff_ne.mpr fun e => h2 e.symm
  have e3 : (("international" : String) == r) = false := beq_eq_false_iff_ne.mpr fun e => h3 e.symm
  have e4 : (("balkan" : String) == r) = false := beq_eq_false_iff_ne.mpr fun e => h4 e.symm
  simp [lookup_regions, region_codes, List.find?, e1, e2, e3, e4]

theorem mem_filter_region (articles : List Article) (o : Option String) (a : Article)
    (h : a ∈ filter_region articles o) :
    a ∈ articles ∧ ∀ r, o = some r → r ≠ "" → a.region ∈ lookup_regions r := by
  cases o with
  | none => exact ⟨h, fun r hr => by cases hr⟩
  | some r =>
    by_cases hr : r = ""
    · rw [filter_region, if_pos hr] at h
      refine ⟨h, ?_⟩
      intro r' hr' hne
      cases hr'
      exact absurd hr hne
    · rw [filter_region, if_neg hr] at h
      rw [List.mem_filter] at h
      refine ⟨h.1, ?_⟩
      intro r' hr' _
      cases hr'
      simpa using h.2

theorem mem_filter_language (articles : List Article) (o : Option String) (a : Article)
    (h : a ∈ filter_language articles o) :
    a ∈ articles ∧ ∀ lg, o = some lg → lg ≠ "" → a.language = lg := by
  cases o with
  | none => exact ⟨h, fun lg hlg => by cases hlg⟩
  | some lg =>
    by_cases hl : lg = ""
    · rw [filter_language, if_pos hl] at h
      refine ⟨h, ?_⟩
      intro lg' hlg' hne
      cases hlg'
      exact absurd hl hne
    · rw [filter_language, if_neg hl] at h
      rw [List.mem_filter] at h
      refine ⟨h.1, ?_⟩
      intro lg' hlg' _
      cases hlg'
      simpa using h.2

theorem mem_filter_category (articles : List Article) (o : Option String) (a : Article)
    (h : a ∈ filter_category articles o) :
    a ∈ articles ∧ ∀ c, o = some c → c ≠ "" → c ∈ a.categories := by
  cases o with
  | none => exact ⟨h, fun c hc => by cases hc⟩
  | some c =>
    by_cases hc : c = ""
    · rw [filter_category, if_pos hc] at h
      refine ⟨h, ?_⟩
      intro c' hc' hne
      cases hc'
      exact absurd hc hne
    · rw [filter_category, if_neg hc] at h
      rw [List.mem_filter] at h
      refine ⟨h.1, ?_⟩
      intro c' hc' _
      cases hc'
      simpa using h.2

theorem mem_apply_filters (articles : List Article) (region category language : Option String)
    (a : Article) (h : a ∈ apply_filters articles region category language) :
    a ∈ articles
    ∧ (∀ r, region = some r → r ≠ "" → a.region ∈ lookup_regions r)
    ∧ (∀ lg, language = some lg → lg ≠ "" → a.language = lg)
    ∧ (∀ c, category = some c → c ≠ "" → c ∈ a.categories) := by
  unfold apply_filters at h
  obtain ⟨h1, hcat⟩ := mem_filter_category _ _ _ h
  obtain ⟨h2, hlang⟩ := mem_filter_language _ _ _ h1
  obtain ⟨h3, hreg⟩ := mem_filter_region _ _ _ h2
  exact ⟨h3, hreg, hlang, hcat⟩

theorem py_slice_to_nil (limit : Int) : py_slice_to limit ([] : List Article) = [] := by
  unfold py_slice_to
  split <;> simp

/-- C9 (amended): a non-empty region value outside the allow-list
resolves to the empty allowed-region set and yields zero articles, and
unknown non-empty language or category values (the latter also distinct
from the fallback label) likewise yield zero matches when the served
articles come from the aggregation pipeline over the configured
registry; in every case the endpoint returns its ordinary payload with
`total = 0` rather than an error.  (The empty-string value is excluded:
it is falsy in the source and skips the filter, per the
counterexample.) -/
theorem get_news_unknown_params
    (cache : NewsCache) (now : Nat) (limit : Int) (refresh : Bool)
    (nowC nowF : String) (feedsC feedsF : List (FeedConfig × FetchOutcome))
    (fresh : List Article) (region category language : Option String)
    (hC : cache.articles = fetch_all_feeds nowC feedsC)
    (hF : fresh = fetch_all_feeds nowF feedsF)
    (hCreg : ∀ p ∈ feedsC, (p : FeedConfig × FetchOutcome).1 ∈ all_feed_configs)
    (hFreg : ∀ p ∈ feedsF, (p : FeedConfig × FetchOutcome).1 ∈ all_feed_configs) :
    (∀ r : String, r ∉ ["swiss", "german", "international", "balkan"] → r ≠ "" →
      (lookup_regions r = []
       ∧ (get_news cache now (some r) category language limit refresh fresh).2.1.articles = []
       ∧ (get_news cache now (some r) category language limit refresh fresh).2.1.total = 0))
    ∧ (∀ lg : String, lg ∉ registry_langs → lg ≠ "" →
      ((get_news cache now region category (some lg) limit refresh fresh).2.1.articles = []
       ∧ (get_news cache now region category (some lg) limit refresh fresh).2.1.total = 0))
    ∧ (∀ c : String, c ∉ category_names → c ≠ "general" → c ≠ "" →
      ((get_news cache now region (some c) language limit refresh fresh).2.1.articles = []
       ∧ (get_news cache now region (some c) language limit refresh fresh).2.1.total = 0)) := by
  have harts : ∀ rg ct lg : Option String,
      (get_news cache now rg ct lg limit refresh fresh).2.1.articles
        = py_slice_to limit (apply_filters
            ((if cache_valid cache now refresh then cache
              else { articles := fresh, last_updated := some now } : NewsCache).articles)
            rg ct lg) := fun _ _ _ => rfl
  have htot : ∀ rg ct lg : Option String,
      (get_news cache now rg ct lg limit refresh fresh).2.1.total
        = (py_slice_to limit (apply_filters
            ((if cache_valid cache now refresh then cache
              else { articles := fresh, last_updated := some now } : NewsCache).articles)
            rg ct lg)).length := fun _ _ _ => rfl
  have hserved : ∀ a ∈ (if cache_valid cache now refresh then cache
        else { articles := fresh, last_updated := some now } : NewsCache).articles,
      a.language ∈ registry_langs ∧ ∀ c ∈ a.categories, c ∈ category_names ∨ c = "general" := by
    intro a ha
    cases hv : cache_valid cache now refresh
    · simp only [hv, Bool.false_eq_true, if_false] at ha
      rw [hF] at ha
      exact article_from_registry nowF feedsF a hFreg ha
    · simp only [hv, if_true] at ha
      rw [hC] at ha
      exact article_from_registry nowC feedsC a hCreg ha
  refine ⟨?_, ?_, ?_⟩
  · intro r hr hne
    have hlook := lookup_regions_unknown r hr
    have hempty : apply_filters
        ((if cache_valid cache now refresh then cache
          else { articles := fresh, last_updated := some now } : NewsCache).articles)
        (some r) category language = [] := by
      rw [List.eq_nil_iff_forall_not_mem]
      intro a ha
      obtain ⟨-, hreg', -, -⟩ := mem_apply_filters _ _ _ _ a ha
      have hmem := hreg' r rfl hne
      rw [hlook] at hmem
      simp at hmem
    refine ⟨hlook, ?_, ?_⟩
    · rw [harts, hempty, py_slice_to_nil]
    · rw [htot, hempty, py_slice_to_nil]
      rfl
  · intro lg hlg hne
    have hempty : apply_filters
        ((if cache_valid cache now refresh then cache
          else { articles := fresh, last_updated := some now } : NewsCache).articles)
        region category (some lg) = [] := by
      rw [List.eq_nil_iff_forall_not_mem]
      intro a ha
      obtain ⟨hmem, -, hlang', -⟩ := mem_apply_filters _ _ _ _ a ha
      have heq := hlang' lg rfl hne
      have := (hserved a hmem).1
      rw [heq] at this
      exact hlg this
    constructor
    · rw [harts, hempty, py_slice_to_nil]
    · rw [htot, hempty, py_slice_to_nil]
      rfl
  · intro c hc hcg hne
    have hempty : apply_filters
        ((if cache_valid cache now refresh then cache
          else { articles := fresh, last_updated := some now } : NewsCache).articles)
        region (some c) language = [] := by
      rw [List.eq_nil_iff_forall_not_mem]
      intro a ha
      obtain ⟨hmem, -, -, hcat'⟩ := mem_apply_filters _ _ _ _ a ha
      have hcmem := hcat' c rfl hne
      rcases (hserved a hmem).2 c hcmem with h1 | h1
      · exact hc h1
      · exact hcg h1
    constructor
    · rw [harts, hempty, py_slice_to_nil]
    · rw [htot, hempty, py_slice_to_nil]
      rfl

/-- C10 (amended): the `total` field always equals the length of the
returned `articles` array (after filtering and limit truncation), and
for a nonnegative limit not exceeding the number of filtered matches,
`total` equals the limit rather than the full match count.  (A negative
limit slices from the end instead, per the counterexample.) -/
theorem get_news_total_eq (cache : NewsCache) (now : Nat)
    (region category language : Option String) (limit : Int) (refresh : Bool)
    (fresh : List Article) :
    (get_news cache now region category language limit refresh fresh).2.1.total
      = (get_news cache now region category language limit refresh fresh).2.1.articles.length
    ∧ (∀ n : Nat, limit = (n : Int) →
        n ≤ (apply_filters
              (get_news cache now region category language limit refresh fresh).1.articles
              region category language).length →
        (get_news cache now region category language limit refresh fresh).2.1.total = n) := by
  constructor
  · rfl
  · intro n hn hlen
    show (py_slice_to limit (apply_filters
        ((if cache_valid cache now refresh then cache
          else { articles := fresh, last_updated := some now } : NewsCache).articles)
        region category language)).length = n
    have hlen' : n ≤ (apply_filters
        ((if cache_valid cache now refresh then cache
          else { articles := fresh, last_updated := some now } : NewsCache).articles)
        region category language).length := hlen
    rw [hn, py_slice_to]
    rw [if_pos (Int.natCast_nonneg n)]
    rw [Int.toNat_natCast]
    rw [List.length_take]
    omega

/-- C1 witness: a cache populated 30 minutes ago holding one article is
served with no aggregation pass and unchanged cache. -/
theorem get_news_cache_window_witness :
    (get_news ⟨[art_new], some 0⟩ 1800 none none none 50 false []).2.2 = false
    ∧ (get_news ⟨[art_new], some 0⟩ 1800 none none none 50 false []).1
        = (⟨[art_new], some 0⟩ : NewsCache) := by
  have H := (get_news_cache_window ⟨[art_new], some 0⟩ 1800 0 none none none 50 [] rfl).1
    (by decide) (by decide)
  exact ⟨H.1, H.2.1⟩

/-- C1 counterexample: a cache populated 30 minutes ago (well inside
the window) with an empty stored list triggers a new aggregation pass,
contrary to the claim that any recent population is served as-is. -/
theorem get_news_claim_counterexample :
    (⟨[], some 0⟩ : NewsCache).last_updated = some 0
    ∧ 1800 - 0 < cache_duration
    ∧ (get_news ⟨[], some 0⟩ 1800 none none none 50 false []).2.2 = true := by
  refine ⟨rfl, by decide, by decide⟩

set_option maxRecDepth 8000 in
/-- C2 witness: a transport failure of the TCS source contributes zero
articles, and the aggregate over the failing source and a source whose
fetch yields three distinctly-titled articles is a permutation of
exactly those three articles. -/
theorem fetch_failure_isolation_witness :
    fetch_single_feed cfg_tcs now_s .failure = []
    ∧ (fetch_all_feeds now_s [(cfg_tcs, .failure), (cfg_blick, outcome_b3)]).Perm
        (fetch_single_feed cfg_blick now_s outcome_b3)
    ∧ (fetch_single_feed cfg_blick now_s outcome_b3).length = 3 := by
  have H := fetch_failure_isolation cfg_tcs cfg_blick .failure outcome_b3 now_s (by decide)
  exact ⟨H.1, H.2.2 (by decide), by decide⟩

set_option maxRecDepth 8000 in
/-- C3 witness: in the two-source scenario (same title, publish times T
and T minus 10 minutes, different links), the aggregate is exactly the
single article with timestamp T; its title key coincides with the older
article's and its published key dominates it. -/
theorem fetch_all_feeds_dedup_newest_witness :
    (fetch_all_feeds now_s scene_feeds).Pairwise (fun u v => title_key u ≠ title_key v)
    ∧ fetch_all_feeds now_s scene_feeds = [art_new]
    ∧ title_key art_new = title_key art_old
    ∧ pub_key art_old ≤ pub_key art_new := by
  refine ⟨(fetch_all_feeds_dedup_newest now_s scene_feeds).1, by decide, by decide, by decide⟩

/-- C4 witness: the two-source scenario aggregate satisfies the
descending order invariant, and an article with a missing published
value has minimal key. -/
theorem fetch_all_feeds_sorted_desc_witness :
    (fetch_all_feeds now_s scene_feeds).Pairwise published_order
    ∧ pub_key { art_new with published := none } ≤ pub_key art_old :=
  ⟨(fetch_all_feeds_sorted_desc now_s scene_feeds).1,
   (fetch_all_feeds_sorted_desc now_s scene_feeds).2 { art_new with published := none } art_old
     (Or.inl rfl)⟩

/-- C5 witness: with no raising entry both entries of a feed contribute
one article each, and an entry raising during image resolution aborts
the loop after the articles accumulated before it. -/
theorem process_entries_fault_isolation_witness :
    (process_entries cfg_tcs now_s [entry_new, entry_batt]).length = [entry_new, entry_batt].length
    ∧ process_entries cfg_tcs now_s ([entry_new] ++ entry_bad :: [entry_batt])
        = process_entries cfg_tcs now_s [entry_new] :=
  process_entries_fault_isolation cfg_tcs now_s [entry_new, entry_batt] [entry_new] [entry_batt]
    entry_bad (by decide) (by decide) (by decide)

set_option maxRecDepth 8000 in
/-- C5 counterexample: an entry whose image resolution raises as the
first of two entries makes the whole feed yield zero articles — the
later, well-formed entry (which alone yields one article) is dropped,
contrary to the claim that remaining entries still contribute. -/
theorem process_entries_claim_counterexample :
    fetch_single_feed cfg_tcs now_s (.response 200 (.ok [entry_bad, entry_new])) = []
    ∧ fetch_single_feed cfg_tcs now_s (.response 200 (.ok [entry_new])) = [art_new] := by
  exact ⟨by decide, by decide⟩

set_option maxRecDepth 8000 in
/-- C6 witness: a 501-character input cleans to more than 500
characters, so the result is capped at 503 characters and ends in the
ellipsis marker. -/
theorem clean_html_spec_witness :
    (clean_html long_text).data.length ≤ 503
    ∧ List.IsSuffix "...".data (clean_html long_text).data :=
  (clean_html_spec long_text).2 (by decide)

/-- C7 witness: with empty title and summary no keyword matches, so the
categorizer returns exactly the fallback label. -/
theorem categorize_article_spec_witness :
    categorize_article "" "" = ["general"] :=
  (categorize_article_spec "" "").2.2 (by decide)

/-- C8 witness: the identifier of a concrete link is reproducible and
12 characters long. -/
theorem generate_article_id_spec_witness :
    generate_article_id "https://www.tcs.ch/news/1" = generate_article_id "https://www.tcs.ch/news/1"
    ∧ (generate_article_id "https://www.tcs.ch/news/1").data.length = 12 := by
  have H := generate_article_id_spec "https://www.tcs.ch/news/1" "https://www.tcs.ch/news/1" rfl
  exact ⟨H.1, H.2.1⟩

/-- C9 witness: over a cache populated from the pipeline, an unknown
non-empty region, an unknown language and an unknown category each
yield a normal response with zero articles. -/
theorem get_news_unknown_params_witness :
    (get_news ⟨fetch_all_feeds now_s scene_feeds, some 0⟩ 100 (some "atlantis") none none
        50 false []).2.1.total = 0
    ∧ (get_news ⟨fetch_all_feeds now_s scene_feeds, some 0⟩ 100 none none (some "xx")
        50 false []).2.1.total = 0
    ∧ (get_news ⟨fetch_all_feeds now_s scene_feeds, some 0⟩ 100 none (some "sports") none
        50 false []).2.1.total = 0 := by
  have H := get_news_unknown_params ⟨fetch_all_feeds now_s scene_feeds, some 0⟩ 100 50 false
    now_s now_s scene_feeds [] [] none none none rfl rfl (by decide) (by simp)
  exact ⟨(H.1 "atlantis" (by decide) (by decide)).2.2,
         (H.2.1 "xx" (by decide) (by decide)).2,
         (H.2.2 "sports" (by decide) (by decide) (by decide)).2⟩

set_option maxRecDepth 8000 in
/-- C9 counterexample: the empty string is a region value outside the
allow-list, yet it is falsy in `if region:`, so the filter is skipped
entirely and the cached article is returned — one article, not zero. -/
theorem get_news_unknown_params_counterexample :
    ("" ∉ ["swiss", "german", "international", "balkan"])
    ∧ (get_news ⟨[art_new], some 0⟩ 100 (some "") none none 50 false []).2.1.total = 1 := by
  exact ⟨by decide, by decide⟩

/-- C10 witness: with a limit of 1 and two cached matching articles the
response holds `total = 1`, the limit rather than the match count. -/
theorem get_news_total_eq_witness :
    (get_news ⟨[art_new, art_batt], some 0⟩ 100 none none none 1 false []).2.1.total = 1 :=
  (get_news_total_eq ⟨[art_new, art_batt], some 0⟩ 100 none none none 1 false []).2 1 rfl
    (by decide)

set_option maxRecDepth 8000 in
/-- C10 counterexample: with limit `-1` and two matching cached
articles, Python's slice `articles[:-1]` keeps one article, so `total`
is `1`: more articles match than the limit, yet `total` is neither the
limit nor the match count claimed. -/
theorem get_news_total_counterexample :
    (get_news ⟨[art_new, art_batt], some 0⟩ 100 none none none (-1) false []).2.1.total = 1
    ∧ (apply_filters [art_new, art_batt] none none none).length = 2 := by
  exact ⟨by decide, by decide⟩
